import Mathlib

/-!
Shallow embedding of the octobors merge-automation core, translated from
the repository sources:

* src/review.rs      -- the review ledger (Reviews, Status, Approval)
* src/process.rs     -- the PR analyzer (Analyzer::required_actions and helpers)
* src/merge.rs       -- the merge queue (queue) and the commit-message sanitizer

Modelling conventions:

* Rust HashMap / HashSet values are modelled as association lists / lists
  with insert-replace / insert-if-absent operations; all the verified
  properties are insensitive to iteration order, and every fold the code
  performs over a map is order-insensitive (it only computes existential
  flags or early-returns on a fixed constructor).
* Machine integers (u64, i64) index nothing overflow-sensitive here and are
  modelled as Nat / Int.
* Timestamps are modelled as Int minutes, matching the only arithmetic the
  code does on them (Utc::now() - Duration::minutes(60)).
* Network effects are passed in as data: the analyzer receives the review
  list and the status map (the RemoteData::Local path of the source), and
  the merge queue receives the sequence of PR re-fetch results and the
  merge API outcome, recording its observable behaviour in a trace.
-/

namespace Octobors

/-- octocrab's models::pulls::ReviewState (the variants the code matches on,
plus Dismissed which falls into the wildcard arms). -/
inductive ReviewState where
  | approved
  | changesRequested
  | commented
  | pending
  | dismissed
deriving DecidableEq, Repr

/-- octocrab's models::IssueState. -/
inductive IssueState where
  | open
  | closed
deriving DecidableEq, Repr

/-- octocrab's models::StatusState. -/
inductive StatusState where
  | success
  | error
  | failure
  | pending
deriving DecidableEq, Repr

/-! ## src/review.rs -/

/-- src/review.rs: struct Review. -/
structure Review where
  user_name : String
  state : ReviewState
deriving DecidableEq, Repr

/-- src/review.rs: enum Status. -/
inductive Status where
  | Approved
  | ChangeRequested
deriving DecidableEq, Repr

/-- src/review.rs: enum Approval. -/
inductive Approval where
  | Required
  | Optional
deriving DecidableEq, Repr

/-- src/review.rs: enum CommentEffect. -/
inductive CommentEffect where
  | RequestsChange
  | Ignore
deriving DecidableEq, Repr

/-- src/review.rs: struct Reviews.  The HashMap<String, Status> field
review_by_nick is modelled as an association list with at most the map's
entries; HashMap::get is association-list lookup and HashMap::insert is
insert-or-replace. -/
structure Reviews where
  review_by_nick : List (String × Status)
  comment_effect : CommentEffect
  author : String
deriving DecidableEq, Repr

/-- Association-list lookup: HashMap::get. -/
def alookup (k : String) : List (String × Status) → Option Status
  | [] => none
  | (k', v) :: rest => if k' = k then some v else alookup k rest

/-- Association-list insert-or-replace: HashMap::insert. -/
def ainsert (k : String) (v : Status) : List (String × Status) → List (String × Status)
  | [] => [(k, v)]
  | (k', v') :: rest => if k' = k then (k, v) :: rest else (k', v') :: ainsert k v rest

/-- src/review.rs: Reviews::new. -/
def Reviews.new (author : String) (comment_effect : CommentEffect) : Reviews :=
  { review_by_nick := [], comment_effect := comment_effect, author := author }

/-- The loop body of src/review.rs Reviews::approved: iterate the entries,
setting the flag on Approved and returning false immediately on
ChangeRequested. -/
def approvedLoop : List (String × Status) → Bool → Bool
  | [], acc => acc
  | (_, s) :: rest, _acc =>
    match s with
    | Status.Approved => approvedLoop rest true
    | Status.ChangeRequested => false

/-- src/review.rs: Reviews::approved.  The initial flag is true exactly for
Approval::Optional. -/
def Reviews.approved (r : Reviews) (approval_required : Approval) : Bool :=
  approvedLoop r.review_by_nick (approval_required = Approval.Optional)

/-- src/review.rs: Reviews::record. -/
def Reviews.record (r : Reviews) (review : Review) : Reviews :=
  if review.user_name = r.author then r
  else
    let status : Option Status :=
      match review.state, r.comment_effect with
      | ReviewState.approved, _ => some Status.Approved
      | ReviewState.changesRequested, _ => some Status.ChangeRequested
      | ReviewState.commented, CommentEffect.RequestsChange =>
        match alookup review.user_name r.review_by_nick with
        | some Status.Approved => none
        | _ => some Status.ChangeRequested
      | _, _ => none
    match status with
    | some s => { r with review_by_nick := ainsert review.user_name s r.review_by_nick }
    | none => r

/-- src/review.rs: Reviews::record_reviews (a fold of record over the list). -/
def Reviews.record_reviews (r : Reviews) (reviews : List Review) : Reviews :=
  reviews.foldl Reviews.record r

/-! ## src/process.rs -/

/-- src/process.rs: struct PR (the fields required_actions reads).
updated_at is an Int timestamp in minutes. -/
structure PR where
  number : Nat
  draft : Bool
  state : IssueState
  updated_at : Int
  labels : List String
  has_description : Bool
deriving DecidableEq, Repr

/-- The configuration fields of context::Config that
Analyzer::required_actions and its helpers read.  In the configuration
consumed by src/process.rs, reviewed_label, needs_description_label and
block_merge_label are optional while ci_passed_label is always present
(Actions::set_label receives it unconditionally). -/
structure Config where
  reviewed_label : Option String
  needs_description_label : Option String
  ci_passed_label : String
  block_merge_label : Option String
  required_statuses : List String
deriving DecidableEq, Repr

/-- src/process.rs: struct Review (keyed by stable user id, an i64). -/
structure ProcessReview where
  user_id : Int
  state : ReviewState
deriving DecidableEq, Repr

/-- src/process.rs: enum Presence. -/
inductive Presence where
  | Present
  | Absent
deriving DecidableEq, Repr

/-- src/process.rs: Presence::should_be_present. -/
def Presence.should_be_present (should : Bool) : Presence :=
  if should then Presence.Present else Presence.Absent

/-- src/process.rs: struct Actions.  The two HashSet<String> fields are
modelled as lists with insert-if-absent; only membership is observable. -/
structure Actions where
  merge : Bool
  add_labels : List String
  remove_labels : List String
deriving DecidableEq, Repr

/-- HashSet::insert: add the element unless already present. -/
def hsInsert (x : String) (s : List String) : List String :=
  if x ∈ s then s else x :: s

/-- src/process.rs: Actions::noop (the Default value). -/
def Actions.noop : Actions :=
  { merge := false, add_labels := [], remove_labels := [] }

/-- src/process.rs: Actions::set_label. -/
def Actions.set_label (a : Actions) (label : String) (p : Presence) : Actions :=
  match p with
  | Presence.Present => { a with add_labels := hsInsert label a.add_labels }
  | Presence.Absent => { a with remove_labels := hsInsert label a.remove_labels }

/-- src/process.rs: Actions::set_merge. -/
def Actions.set_merge (a : Actions) (should_merge : Bool) : Actions :=
  { a with merge := should_merge }

/-- src/process.rs: Analyzer::pr_statuses_passed over the fetched status
map (HashMap<String, StatusState> modelled as a finite map function):
every required status must be present and Success. -/
def pr_statuses_passed (cfg : Config) (statuses : String → Option StatusState) : Bool :=
  cfg.required_statuses.all fun required => statuses required = some StatusState.success

/-- Insert-or-replace on the latest-review-per-person association list:
collect::<HashMap<_, _>>() keeps the last entry for each key. -/
def pinsert (k : Int) (v : ReviewState) :
    List (Int × ReviewState) → List (Int × ReviewState)
  | [] => [(k, v)]
  | (k', v') :: rest => if k' = k then (k, v) :: rest else (k', v') :: pinsert k v rest

/-- src/process.rs Analyzer::pr_approved: the iterator .map(user_id, state)
collected into a HashMap, keeping the chronologically last state per user. -/
def latest_reviews_per_person (reviews : List ProcessReview) : List (Int × ReviewState) :=
  reviews.foldl (fun m r => pinsert r.user_id r.state m) []

/-- The loop body of src/process.rs Analyzer::pr_approved: walk the latest
states setting the approved flag on Approved and the waiting flag on
Pending or ChangesRequested. -/
def approvedWaitingLoop : List ReviewState → Bool × Bool → Bool × Bool
  | [], acc => acc
  | s :: rest, (approved, waiting) =>
    match s with
    | ReviewState.approved => approvedWaitingLoop rest (true, waiting)
    | ReviewState.pending => approvedWaitingLoop rest (approved, true)
    | ReviewState.changesRequested => approvedWaitingLoop rest (approved, true)
    | _ => approvedWaitingLoop rest (approved, waiting)

/-- src/process.rs: Analyzer::pr_approved.  approved starts true iff no
reviewed label is configured; the result is approved && !waiting. -/
def pr_approved (cfg : Config) (reviews : List ProcessReview) : Bool :=
  let review_not_required := cfg.reviewed_label.isNone
  let latest := latest_reviews_per_person reviews
  let res := approvedWaitingLoop (latest.map Prod.snd) (review_not_required, false)
  res.1 && !res.2

/-- src/process.rs: Analyzer::block_merge_label_applied. -/
def block_merge_label_applied (cfg : Config) (pr : PR) : Bool :=
  match cfg.block_merge_label with
  | none => false
  | some label => pr.labels.contains label

/-- src/process.rs: Analyzer::required_actions.  The three terminal guards
return Actions::noop() before any data is consulted; otherwise the three
labels are resolved and the merge bit computed.  now is Utc::now() in
minutes; Duration::minutes(60) is the literal 60. -/
def required_actions (cfg : Config) (pr : PR) (reviews : List ProcessReview)
    (statuses : String → Option StatusState) (now : Int) : Actions :=
  if pr.draft then Actions.noop
  else if pr.state = IssueState.closed then Actions.noop
  else if pr.updated_at < now - 60 then Actions.noop
  else
    let statuses_passed := pr_statuses_passed cfg statuses
    let approved := pr_approved cfg reviews
    let a1 :=
      match cfg.reviewed_label with
      | some label => Actions.noop.set_label label (Presence.should_be_present approved)
      | none => Actions.noop
    let step2 :=
      match cfg.needs_description_label with
      | some label =>
        (a1.set_label label (Presence.should_be_present (!pr.has_description)),
         pr.has_description)
      | none => (a1, true)
    let a2 := step2.1
    let description_ok := step2.2
    let a3 := a2.set_label cfg.ci_passed_label (Presence.should_be_present statuses_passed)
    a3.set_merge
      (!block_merge_label_applied cfg pr && description_ok && approved && statuses_passed)

/-! ## src/merge.rs: remove_html_comments -/

/-- Rust char::is_whitespace restricted to the ASCII whitespace characters
(all inputs of interest are ASCII). -/
def isWs (c : Char) : Bool :=
  c = ' ' || c = '\t' || c = '\n' || c = '\r' || c = '\x0b' || c = '\x0c'

/-- str::starts_with for character lists. -/
def leadsWith : List Char → List Char → Bool
  | [], _ => true
  | _ :: _, [] => false
  | p :: ps, x :: xs => p = x && leadsWith ps xs

/-- str::find for a literal pattern: byte = character index of the first
occurrence. -/
def findSub (pat : List Char) : List Char → Option Nat
  | [] => if pat.isEmpty then some 0 else none
  | x :: xs =>
    if leadsWith pat (x :: xs) then some 0
    else (findSub pat xs).map (· + 1)

/-- str::contains for a literal pattern. -/
def containsSub (pat s : List Char) : Bool :=
  (findSub pat s).isSome

/-- The HTML comment opener. -/
def opener : List Char := '<' :: '!' :: '-' :: '-' :: []

/-- The HTML comment closer. -/
def closer : List Char := '-' :: '-' :: '>' :: []

/-- The while-let loop of src/merge.rs remove_html_comments.  Returns none
on the embedded-comment abort (the Rust code returns the whole body there,
skipping normalization) and some r where r is the accumulated result text
otherwise; an unterminated comment keeps the text before the opener and
drops the rest (result never receives the final haystack).  Each iteration
drops at least end + 3 >= 3 characters of the haystack, so the fuel
body.length + 1 used below is never exhausted; the fuel-out branch conservatively
mirrors the abort. -/
def stripGo : Nat → List Char → Option (List Char)
  | 0, _ => none
  | fuel + 1, haystack =>
    match findSub opener haystack with
    | none => some haystack
    | some start =>
      match findSub closer (haystack.drop start) with
      | none => some (haystack.take start)
      | some endRel =>
        let e := start + endRel
        if containsSub opener ((haystack.take e).drop (start + 4)) then none
        else (stripGo fuel (haystack.drop (e + 3))).map fun rest => haystack.take start ++ rest

/-- str::trim: drop whitespace from both ends. -/
def trimChars (l : List Char) : List Char :=
  ((l.dropWhile isWs).reverse.dropWhile isWs).reverse

/-- str::split('\n') (split on every newline, keeping empty pieces). -/
def splitNl : List Char → List (List Char)
  | [] => [[]]
  | x :: xs =>
    match splitNl xs with
    | [] => [[]]
    | y :: ys => if x = '\n' then [] :: y :: ys else (x :: y) :: ys

/-- str::split_whitespace via an accumulator: the list of maximal
non-whitespace runs. -/
def splitWsAux : List Char → List Char → List (List Char)
  | [], cur => if cur.isEmpty then [] else [cur.reverse]
  | x :: xs, cur =>
    if isWs x then
      if cur.isEmpty then splitWsAux xs [] else cur.reverse :: splitWsAux xs []
    else splitWsAux xs (x :: cur)

/-- str::split_whitespace. -/
def splitWs (l : List Char) : List (List Char) :=
  splitWsAux l []

/-- slice::join for character lists. -/
def joinSep (sep : List Char) : List (List Char) → List Char
  | [] => []
  | [x] => x
  | x :: y :: ys => x ++ sep ++ joinSep sep (y :: ys)

/-- The prev_was_empty loop of remove_html_comments: keep at most one
consecutive blank line. -/
def collapseBlank : List (List Char) → Bool → List (List Char)
  | [], _ => []
  | line :: rest, prev_was_empty =>
    if (trimChars line).isEmpty then
      if prev_was_empty then collapseBlank rest true
      else line :: collapseBlank rest true
    else line :: collapseBlank rest false

/-- The whitespace normalization pass at the end of remove_html_comments:
trim, collapse intra-line whitespace runs, drop duplicated blank lines and
rejoin with newlines. -/
def wsNormalize (result : List Char) : List Char :=
  let lines := (splitNl (trimChars result)).map fun line => joinSep [' '] (splitWs line)
  joinSep ['\n'] (collapseBlank lines false)

/-- src/merge.rs: remove_html_comments.  The embedded-comment abort
returns the body unchanged and unnormalized; every other path runs the
whitespace normalization on the stripped text. -/
def remove_html_comments (body : List Char) : List Char :=
  match stripGo (body.length + 1) body with
  | none => body
  | some result => wsNormalize result

/-! ## src/merge.rs: queue -/

/-- octocrab's models::pulls::MergeableState. -/
inductive MergeableState where
  | behind
  | blocked
  | clean
  | dirty
  | draft
  | hasHooks
  | unknown
  | unstable
deriving DecidableEq, Repr

/-- Observable events of one merge::queue run: the i-th PR re-fetch, a
tokio sleep of the given number of seconds, and a merge API call. -/
inductive QEvent where
  | fetchPr (i : Nat)
  | sleepSecs (n : Nat)
  | mergeCall
deriving DecidableEq, Repr

/-- The outcome of a merge::queue run: its anyhow::Result and the trace of
its observable effects, in order. -/
structure QOut where
  result : Except String Unit
  trace : List QEvent
deriving Repr

/-- The while retry_count < 3 loop of src/merge.rs queue.  fuel is
3 - retry_count and i counts the fetches issued so far; the two coincide
because only the Unknown/None arm continues the loop (every other arm
returns Ok(())).  fetch i is the result of the i-th re-fetch of the PR
(Err for a failed request, otherwise pr.mergeable_state); mergeRes is the
outcome of the merge API call, which the code only logs: a rejected merge
produces an abort_reason and still returns Ok(()) without retrying. -/
def queueAux (fetch : Nat → Except String (Option MergeableState))
    (mergeRes : Except String Unit) : Nat → Nat → QOut
  | 0, _ => { result := Except.ok (), trace := [] }
  | fuel + 1, i =>
    match fetch i with
    | Except.error e => { result := Except.error e, trace := [QEvent.fetchPr i] }
    | Except.ok ms =>
      match ms with
      | none | some MergeableState.unknown =>
        let rest := queueAux fetch mergeRes fuel (i + 1)
        { result := rest.result,
          trace := QEvent.fetchPr i :: QEvent.sleepSecs 10 :: rest.trace }
      | some MergeableState.draft | some MergeableState.behind
      | some MergeableState.dirty | some MergeableState.blocked =>
        { result := Except.ok (), trace := [QEvent.fetchPr i] }
      | some MergeableState.clean | some MergeableState.hasHooks
      | some MergeableState.unstable =>
        { result := Except.ok (), trace := [QEvent.fetchPr i, QEvent.mergeCall] }

/-- src/merge.rs: queue, entered with retry_count = 0. -/
def queue (fetch : Nat → Except String (Option MergeableState))
    (mergeRes : Except String Unit) : QOut :=
  queueAux fetch mergeRes 3 0

/-! ## Claim C1 -/

lemma approvedLoop_false_of_mem (l : List (String × Status)) (acc : Bool)
    (h : ∃ u, (u, Status.ChangeRequested) ∈ l) : approvedLoop l acc = false := by
  induction l generalizing acc with
  | nil => rcases h with ⟨u, hu⟩; cases hu
  | cons p rest ih =>
    obtain ⟨u, hu⟩ := h
    obtain ⟨k, s⟩ := p
    cases s with
    | Approved =>
      have : (u, Status.ChangeRequested) ∈ rest := by
        rcases List.mem_cons.mp hu with h | h
        · cases h
        · exact h
      simpa [approvedLoop] using ih true ⟨u, this⟩
    | ChangeRequested => simp [approvedLoop]

/-- C1: if any reviewer's standing entry in the verdict-map is
ChangeRequested, Reviews::approved returns false, for Required and Optional
alike, regardless of any Approved entries. -/
theorem c1_change_requested_vetoes (r : Reviews) (approval : Approval)
    (h : ∃ u, (u, Status.ChangeRequested) ∈ r.review_by_nick) :
    r.approved approval = false :=
  approvedLoop_false_of_mem r.review_by_nick _ h

/-- C1 witness: a ledger where one reviewer approved and another requested
changes is not approved, for either Approval mode. -/
theorem c1_witness :
    Reviews.approved
      { review_by_nick := [("a", Status.Approved), ("b", Status.ChangeRequested)],
        comment_effect := CommentEffect.Ignore, author := "x" } Approval.Optional = false :=
  c1_change_requested_vetoes _ Approval.Optional ⟨"b", by simp⟩

/-! ## Claim C5 -/

/-- C5: a Commented review folded on top of a reviewer's standing Approved
entry leaves the entry Approved, under either CommentEffect (in particular
under RequestsChange, where the code special-cases this exact situation). -/
theorem c5_comment_after_approval_kept (r : Reviews) (u : String)
    (hne : u ≠ r.author)
    (happ : alookup u r.review_by_nick = some Status.Approved) :
    alookup u (r.record ⟨u, ReviewState.commented⟩).review_by_nick = some Status.Approved := by
  unfold Reviews.record
  simp only [hne, if_false]
  cases r.comment_effect with
  | RequestsChange => simp [happ]
  | Ignore => simp [happ]

/-- C5 witness: reviewer "a" approved earlier; a later comment by "a" under
comment_requests_change leaves the entry Approved. -/
theorem c5_witness :
    alookup "a"
      (Reviews.record
        { review_by_nick := [("a", Status.Approved)],
          comment_effect := CommentEffect.RequestsChange, author := "x" }
        ⟨"a", ReviewState.commented⟩).review_by_nick = some Status.Approved :=
  c5_comment_after_approval_kept _ "a" (by decide) (by decide)

/-! ## Claim C2 -/

/-- C2: a draft PR, a closed PR, or a PR inactive for strictly more than 60
minutes makes required_actions return Actions::noop(): merge is false and
no labels are added or removed. -/
theorem c2_terminal_noop (cfg : Config) (pr : PR) (reviews : List ProcessReview)
    (statuses : String → Option StatusState) (now : Int)
    (h : pr.draft = true ∨ pr.state = IssueState.closed ∨ 60 < now - pr.updated_at) :
    required_actions cfg pr reviews statuses now = Actions.noop ∧
    (required_actions cfg pr reviews statuses now).merge = false ∧
    (required_actions cfg pr reviews statuses now).add_labels = [] ∧
    (required_actions cfg pr reviews statuses now).remove_labels = [] := by
  have hnoop : required_actions cfg pr reviews statuses now = Actions.noop := by
    rcases h with h | h | h
    · simp [required_actions, h]
    · cases hd : pr.draft <;> simp [required_actions, hd, h]
    · have hlt : pr.updated_at < now - 60 := by omega
      cases hd : pr.draft <;> cases hs : pr.state <;>
        simp [required_actions, hd, hs, hlt]
  refine ⟨hnoop, ?_, ?_, ?_⟩ <;> rw [hnoop] <;> rfl

/-- C2 witness: a draft PR yields noop. -/
theorem c2_witness :
    required_actions ⟨some "reviewed", some "nd", "ci", none, []⟩
      ⟨1, true, IssueState.open, 0, [], true⟩ [] (fun _ => none) 0 = Actions.noop :=
  (c2_terminal_noop _ _ _ _ _ (Or.inl rfl)).1

/-! ## Claim C3 -/

/-- C3: when every re-fetch reports mergeability Unknown or absent, queue
issues exactly 3 polls with a 10 second sleep between consecutive polls,
never issues a merge call, and returns Ok(()). -/
theorem c3_unknown_exhausts_polls (fetch : Nat → Except String (Option MergeableState))
    (mergeRes : Except String Unit)
    (h : ∀ i, i < 3 →
      fetch i = Except.ok none ∨ fetch i = Except.ok (some MergeableState.unknown)) :
    queue fetch mergeRes =
      { result := Except.ok (),
        trace := [QEvent.fetchPr 0, QEvent.sleepSecs 10, QEvent.fetchPr 1,
                  QEvent.sleepSecs 10, QEvent.fetchPr 2, QEvent.sleepSecs 10] } ∧
    QEvent.mergeCall ∉ (queue fetch mergeRes).trace := by
  have heq : queue fetch mergeRes =
      { result := Except.ok (),
        trace := [QEvent.fetchPr 0, QEvent.sleepSecs 10, QEvent.fetchPr 1,
                  QEvent.sleepSecs 10, QEvent.fetchPr 2, QEvent.sleepSecs 10] } := by
    rcases h 0 (by omega) with h0 | h0 <;> rcases h 1 (by omega) with h1 | h1 <;>
      rcases h 2 (by omega) with h2 | h2 <;>
        simp [queue, queueAux, h0, h1, h2]
  exact ⟨heq, by rw [heq]; decide⟩

/-- C3 witness: with every fetch answering mergeable_state = None, queue
polls three times, sleeping 10 seconds after each, and succeeds. -/
theorem c3_witness :
    queue (fun _ => Except.ok none) (Except.ok ()) =
      { result := Except.ok (),
        trace := [QEvent.fetchPr 0, QEvent.sleepSecs 10, QEvent.fetchPr 1,
                  QEvent.sleepSecs 10, QEvent.fetchPr 2, QEvent.sleepSecs 10] } :=
  (c3_unknown_exhausts_polls _ _ (fun _ _ => Or.inl rfl)).1

/-! ## Claim C4 -/

/-- C4 counterexample: on the repository's own unit-test input
"Hello <!-- no end so it gets all removed", whose opener has no closer,
remove_html_comments returns "Hello" -- it drops the unterminated tail
instead of returning the original string unchanged. -/
theorem c4_counterexample :
    remove_html_comments ("Hello <!-- no end so it gets all removed".toList) =
      "Hello".toList ∧
    remove_html_comments ("Hello <!-- no end so it gets all removed".toList) ≠
      "Hello <!-- no end so it gets all removed".toList := by
  constructor
  · rfl
  · decide

/-- C4 amended: when the first HTML comment opener of the body has no
closer anywhere after it, remove_html_comments drops the opener and
everything after it, returning the whitespace-normalized text strictly
before the opener; the original string is only returned unchanged in the
nested-comment case. -/
theorem c4_amended_unterminated_truncates (body : List Char) (i : Nat)
    (h1 : findSub opener body = some i)
    (h2 : findSub closer (body.drop i) = none) :
    remove_html_comments body = wsNormalize (body.take i) := by
  have hstrip : stripGo (body.length + 1) body = some (body.take i) := by
    unfold stripGo
    simp [h1, h2]
  unfold remove_html_comments
  rw [hstrip]

/-- C4 amended witness: the opener of the unit-test string sits at index 6
with no closer after it, and the result is the normalized 6-character
head, "Hello". -/
theorem c4_amended_witness :
    remove_html_comments ("Hello <!-- no end so it gets all removed".toList) =
      wsNormalize (("Hello <!-- no end so it gets all removed".toList).take 6) :=
  c4_amended_unterminated_truncates _ 6 (by decide) (by decide)

/-! ## Label characterization (shared by C7 and C10) -/

lemma required_actions_draft (cfg : Config) (pr : PR) (reviews : List ProcessReview)
    (statuses : String → Option StatusState) (now : Int) (hd : pr.draft = true) :
    required_actions cfg pr reviews statuses now = Actions.noop := by
  simp [required_actions, hd]

lemma required_actions_closed (cfg : Config) (pr : PR) (reviews : List ProcessReview)
    (statuses : String → Option StatusState) (now : Int)
    (hs : pr.state = IssueState.closed) :
    required_actions cfg pr reviews statuses now = Actions.noop := by
  cases hd : pr.draft <;> simp [required_actions, hd, hs]

lemma required_actions_stale (cfg : Config) (pr : PR) (reviews : List ProcessReview)
    (statuses : String → Option StatusState) (now : Int)
    (ht : pr.updated_at < now - 60) :
    required_actions cfg pr reviews statuses now = Actions.noop := by
  cases hd : pr.draft <;> cases hs : pr.state <;>
    simp [required_actions, hd, hs, ht]

lemma mem_hsInsert (n x : String) (s : List String) :
    n ∈ hsInsert x s ↔ n = x ∨ n ∈ s := by
  unfold hsInsert
  by_cases hx : x ∈ s
  · rw [if_pos hx]
    constructor
    · exact Or.inr
    · rintro (rfl | h)
      · exact hx
      · exact h
  · rw [if_neg hx]
    exact List.mem_cons

lemma mem_add_labels_iff (cfg : Config) (pr : PR) (reviews : List ProcessReview)
    (statuses : String → Option StatusState) (now : Int) (n : String)
    (h1 : pr.draft = false) (h2 : pr.state ≠ IssueState.closed)
    (h3 : ¬(pr.updated_at < now - 60)) :
    n ∈ (required_actions cfg pr reviews statuses now).add_labels ↔
      (pr_statuses_passed cfg statuses = true ∧ n = cfg.ci_passed_label) ∨
      (cfg.needs_description_label = some n ∧ pr.has_description = false) ∨
      (cfg.reviewed_label = some n ∧ pr_approved cfg reviews = true) := by
  unfold required_actions
  rw [if_neg (by simp [h1]), if_neg h2, if_neg h3]
  cases hrl : cfg.reviewed_label <;> cases hnd : cfg.needs_description_label <;>
    cases hA : pr_approved cfg reviews <;> cases hS : pr_statuses_passed cfg statuses <;>
      cases hD : pr.has_description <;>
        simp [Actions.set_label, Actions.set_merge, Actions.noop,
              Presence.should_be_present, mem_hsInsert, hA, hS, hD, eq_comm]

lemma mem_remove_labels_iff (cfg : Config) (pr : PR) (reviews : List ProcessReview)
    (statuses : String → Option StatusState) (now : Int) (n : String)
    (h1 : pr.draft = false) (h2 : pr.state ≠ IssueState.closed)
    (h3 : ¬(pr.updated_at < now - 60)) :
    n ∈ (required_actions cfg pr reviews statuses now).remove_labels ↔
      (pr_statuses_passed cfg statuses = false ∧ n = cfg.ci_passed_label) ∨
      (cfg.needs_description_label = some n ∧ pr.has_description = true) ∨
      (cfg.reviewed_label = some n ∧ pr_approved cfg reviews = false) := by
  unfold required_actions
  rw [if_neg (by simp [h1]), if_neg h2, if_neg h3]
  cases hrl : cfg.reviewed_label <;> cases hnd : cfg.needs_description_label <;>
    cases hA : pr_approved cfg reviews <;> cases hS : pr_statuses_passed cfg statuses <;>
      cases hD : pr.has_description <;>
        simp [Actions.set_label, Actions.set_merge, Actions.noop,
              Presence.should_be_present, mem_hsInsert, hA, hS, hD, eq_comm]

/-! ## Claim C7 -/

/-- C7: on a non-terminal PR, required_actions only ever touches the
configured label names (an unconfigured role contributes no label at all),
and each configured role's label is placed on the side of the computed
boolean: into add_labels when the boolean says present, into remove_labels
when it says absent. -/
theorem c7_label_frame (cfg : Config) (pr : PR) (reviews : List ProcessReview)
    (statuses : String → Option StatusState) (now : Int)
    (h1 : pr.draft = false) (h2 : pr.state ≠ IssueState.closed)
    (h3 : ¬(pr.updated_at < now - 60)) :
    (∀ n, (n ∈ (required_actions cfg pr reviews statuses now).add_labels ∨
           n ∈ (required_actions cfg pr reviews statuses now).remove_labels) →
        n = cfg.ci_passed_label ∨ cfg.reviewed_label = some n ∨
          cfg.needs_description_label = some n) ∧
    (∀ l, cfg.reviewed_label = some l →
        (pr_approved cfg reviews = true →
          l ∈ (required_actions cfg pr reviews statuses now).add_labels) ∧
        (pr_approved cfg reviews = false →
          l ∈ (required_actions cfg pr reviews statuses now).remove_labels)) ∧
    (∀ l, cfg.needs_description_label = some l →
        (pr.has_description = false →
          l ∈ (required_actions cfg pr reviews statuses now).add_labels) ∧
        (pr.has_description = true →
          l ∈ (required_actions cfg pr reviews statuses now).remove_labels)) ∧
    ((pr_statuses_passed cfg statuses = true →
        cfg.ci_passed_label ∈ (required_actions cfg pr reviews statuses now).add_labels) ∧
     (pr_statuses_passed cfg statuses = false →
        cfg.ci_passed_label ∈ (required_actions cfg pr reviews statuses now).remove_labels)) := by
  refine ⟨?_, ?_, ?_, ?_, ?_⟩
  · intro n hn
    rcases hn with hn | hn
    · rcases (mem_add_labels_iff cfg pr reviews statuses now n h1 h2 h3).mp hn with
        ⟨_, h⟩ | ⟨h, _⟩ | ⟨h, _⟩
      · exact Or.inl h
      · exact Or.inr (Or.inr h)
      · exact Or.inr (Or.inl h)
    · rcases (mem_remove_labels_iff cfg pr reviews statuses now n h1 h2 h3).mp hn with
        ⟨_, h⟩ | ⟨h, _⟩ | ⟨h, _⟩
      · exact Or.inl h
      · exact Or.inr (Or.inr h)
      · exact Or.inr (Or.inl h)
  · intro l hl
    constructor
    · intro hA
      exact (mem_add_labels_iff cfg pr reviews statuses now l h1 h2 h3).mpr
        (Or.inr (Or.inr ⟨hl, hA⟩))
    · intro hA
      exact (mem_remove_labels_iff cfg pr reviews statuses now l h1 h2 h3).mpr
        (Or.inr (Or.inr ⟨hl, hA⟩))
  · intro l hl
    constructor
    · intro hD
      exact (mem_add_labels_iff cfg pr reviews statuses now l h1 h2 h3).mpr
        (Or.inr (Or.inl ⟨hl, hD⟩))
    · intro hD
      exact (mem_remove_labels_iff cfg pr reviews statuses now l h1 h2 h3).mpr
        (Or.inr (Or.inl ⟨hl, hD⟩))
  · intro hS
    exact (mem_add_labels_iff cfg pr reviews statuses now _ h1 h2 h3).mpr
      (Or.inl ⟨hS, rfl⟩)
  · intro hS
    exact (mem_remove_labels_iff cfg pr reviews statuses now _ h1 h2 h3).mpr
      (Or.inl ⟨hS, rfl⟩)

/-- C7 witness: with all three roles configured, a PR with no reviews and
all (zero) required statuses passing gets its configured ci label placed
in add_labels. -/
theorem c7_witness :
    "ci" ∈ (required_actions ⟨some "reviewed", some "nd", "ci", none, []⟩
        ⟨1, false, IssueState.open, 0, [], true⟩ [] (fun _ => none) 0).add_labels :=
  (c7_label_frame ⟨some "reviewed", some "nd", "ci", none, []⟩
      ⟨1, false, IssueState.open, 0, [], true⟩ [] (fun _ => none) 0
      rfl (by decide) (by decide)).2.2.2.1 (by decide)

/-! ## Claim C10 -/

/-- C10: when the configured reviewed, needs-description and ci-passed
label names are pairwise distinct, the add_labels and remove_labels sets
produced by required_actions are disjoint. -/
theorem c10_add_remove_disjoint (cfg : Config) (pr : PR) (reviews : List ProcessReview)
    (statuses : String → Option StatusState) (now : Int)
    (hci_r : ∀ l, cfg.reviewed_label = some l → l ≠ cfg.ci_passed_label)
    (hci_n : ∀ l, cfg.needs_description_label = some l → l ≠ cfg.ci_passed_label)
    (hr_n : ∀ l l', cfg.reviewed_label = some l →
      cfg.needs_description_label = some l' → l ≠ l') :
    ∀ n, n ∈ (required_actions cfg pr reviews statuses now).add_labels →
      n ∉ (required_actions cfg pr reviews statuses now).remove_labels := by
  intro n hadd hrem
  by_cases h1 : pr.draft = false
  · by_cases h2 : pr.state ≠ IssueState.closed
    · by_cases h3 : ¬(pr.updated_at < now - 60)
      · rcases (mem_add_labels_iff cfg pr reviews statuses now n h1 h2 h3).mp hadd with
          ⟨hS, hci⟩ | ⟨hnd, hD⟩ | ⟨hrl, hA⟩ <;>
          rcases (mem_remove_labels_iff cfg pr reviews statuses now n h1 h2 h3).mp hrem with
            ⟨hS', hci'⟩ | ⟨hnd', hD'⟩ | ⟨hrl', hA'⟩
        · rw [hS] at hS'; cases hS'
        · exact hci_n n hnd' hci
        · exact hci_r n hrl' hci
        · exact hci_n n hnd hci'
        · rw [hD] at hD'; cases hD'
        · exact hr_n n n hrl' hnd rfl
        · exact hci_r n hrl hci'
        · exact hr_n n n hrl hnd' rfl
        · rw [hA] at hA'; cases hA'
      · push_neg at h3
        rw [required_actions_stale cfg pr reviews statuses now h3] at hadd
        cases hadd
    · push_neg at h2
      rw [required_actions_closed cfg pr reviews statuses now h2] at hadd
      cases hadd
  · have hd : pr.draft = true := by
      cases hdd : pr.draft
      · exact absurd hdd h1
      · rfl
    rw [required_actions_draft cfg pr reviews statuses now hd] at hadd
    cases hadd

/-- C10 witness: with distinct label names, "ci" -- which lands in
add_labels on a passing, unreviewed PR -- is absent from remove_labels. -/
theorem c10_witness :
    "ci" ∉ (required_actions ⟨some "reviewed", some "nd", "ci", none, []⟩
        ⟨1, false, IssueState.open, 0, [], true⟩ [] (fun _ => none) 0).remove_labels :=
  c10_add_remove_disjoint _ _ _ _ _
    (by intro l hl; simp only [Option.some.injEq] at hl; subst hl; decide)
    (by intro l hl; simp only [Option.some.injEq] at hl; subst hl; decide)
    (by intro l l' hl hl'; simp only [Option.some.injEq] at hl hl';
        subst hl; subst hl'; decide)
    "ci" (by decide)

/-! ## Claim C6 -/

/-- C6 counterexample: reviewer 2's only review is Pending.  Dropping it
leaves the record_reviews ledger unchanged, but Analyzer::pr_approved
flips from false to true, and so does the merge bit of required_actions,
because pr_approved counts a latest Pending review as still-waiting. -/
theorem c6_counterexample :
    (([⟨1, ReviewState.approved⟩, ⟨2, ReviewState.pending⟩] : List ProcessReview).filter
        fun r => !(r.state = ReviewState.pending)) = [⟨1, ReviewState.approved⟩] ∧
    pr_approved ⟨some "reviewed", none, "ci", none, []⟩
      [⟨1, ReviewState.approved⟩, ⟨2, ReviewState.pending⟩] = false ∧
    pr_approved ⟨some "reviewed", none, "ci", none, []⟩
      [⟨1, ReviewState.approved⟩] = true ∧
    (required_actions ⟨some "reviewed", none, "ci", none, []⟩
      ⟨1, false, IssueState.open, 0, [], true⟩
      [⟨1, ReviewState.approved⟩, ⟨2, ReviewState.pending⟩] (fun _ => none) 0).merge = false ∧
    (required_actions ⟨some "reviewed", none, "ci", none, []⟩
      ⟨1, false, IssueState.open, 0, [], true⟩
      [⟨1, ReviewState.approved⟩] (fun _ => none) 0).merge = true := by
  refine ⟨rfl, rfl, rfl, ?_, ?_⟩ <;> decide

/-- C6 amended: Pending reviews are indeed never meaningful to the review
ledger -- filtering them out of the input list leaves the verdict-map
produced by Reviews::record_reviews unchanged, from any starting ledger.
(Analyzer::pr_approved, by contrast, treats a reviewer whose latest review
is Pending as still-waiting, so there removal can flip the result, as the
counterexample shows.) -/
theorem c6_amended_ledger_ignores_pending (r : Reviews) (reviews : List Review) :
    Reviews.record_reviews r (reviews.filter fun rev => !(rev.state = ReviewState.pending)) =
      Reviews.record_reviews r reviews := by
  induction reviews generalizing r with
  | nil => rfl
  | cons x xs ih =>
    by_cases hx : x.state = ReviewState.pending
    · have hrec : r.record x = r := by
        unfold Reviews.record
        by_cases ha : x.user_name = r.author
        · simp [ha]
        · cases he : r.comment_effect <;> simp [ha, hx, he]
      simp only [List.filter_cons, hx]
      simpa [Reviews.record_reviews, hrec] using ih r
    · simp only [List.filter_cons, hx]
      simpa [Reviews.record_reviews] using ih (r.record x)

/-! ## Claim C8 -/

lemma queueAux_behaviour (fetch : Nat → Except String (Option MergeableState))
    (mergeRes : Except String Unit) :
    ∀ fuel i,
      (∀ e, (queueAux fetch mergeRes fuel i).result = Except.error e →
        ∃ j, i ≤ j ∧ j < i + fuel ∧ fetch j = Except.error e) ∧
      (queueAux fetch mergeRes fuel i).trace.count QEvent.mergeCall ≤ 1 ∧
      (QEvent.mergeCall ∈ (queueAux fetch mergeRes fuel i).trace →
        (queueAux fetch mergeRes fuel i).result = Except.ok ()) := by
  intro fuel
  induction fuel with
  | zero =>
    intro i
    refine ⟨?_, ?_, ?_⟩ <;> simp [queueAux]
  | succ fuel ih =>
    intro i
    rcases hf : fetch i with e | ms
    · refine ⟨?_, ?_, ?_⟩
      · intro e' he'
        simp only [queueAux, hf] at he'
        have hee : e = e' := by simpa using he'
        exact ⟨i, le_refl i, by omega, hee ▸ hf⟩
      · simp [queueAux, hf]
      · intro hmem
        simp [queueAux, hf] at hmem
    · cases ms with
      | none =>
        obtain ⟨ih1, ih2, ih3⟩ := ih (i + 1)
        refine ⟨?_, ?_, ?_⟩
        · intro e' he'
          simp only [queueAux, hf] at he'
          obtain ⟨j, hj1, hj2, hj3⟩ := ih1 e' he'
          exact ⟨j, by omega, by omega, hj3⟩
        · simp only [queueAux, hf, List.count_cons]
          simpa using ih2
        · intro hmem
          simp only [queueAux, hf, List.mem_cons] at hmem
          simp only [queueAux, hf]
          rcases hmem with h | h | h
          · cases h
          · cases h
          · exact ih3 h
      | some s =>
        cases s with
        | unknown =>
          obtain ⟨ih1, ih2, ih3⟩ := ih (i + 1)
          refine ⟨?_, ?_, ?_⟩
          · intro e' he'
            simp only [queueAux, hf] at he'
            obtain ⟨j, hj1, hj2, hj3⟩ := ih1 e' he'
            exact ⟨j, by omega, by omega, hj3⟩
          · simp only [queueAux, hf, List.count_cons]
            simpa using ih2
          · intro hmem
            simp only [queueAux, hf, List.mem_cons] at hmem
            simp only [queueAux, hf]
            rcases hmem with h | h | h
            · cases h
            · cases h
            · exact ih3 h
        | behind =>
          refine ⟨?_, ?_, ?_⟩ <;> simp [queueAux, hf]
        | blocked =>
          refine ⟨?_, ?_, ?_⟩ <;> simp [queueAux, hf]
        | dirty =>
          refine ⟨?_, ?_, ?_⟩ <;> simp [queueAux, hf]
        | draft =>
          refine ⟨?_, ?_, ?_⟩ <;> simp [queueAux, hf]
        | clean =>
          refine ⟨?_, ?_, ?_⟩ <;> simp [queueAux, hf, List.count_cons]
        | hasHooks =>
          refine ⟨?_, ?_, ?_⟩ <;> simp [queueAux, hf, List.count_cons]
        | unstable =>
          refine ⟨?_, ?_, ?_⟩ <;> simp [queueAux, hf, List.count_cons]

/-- C8: merge::queue propagates an error only when a PR re-fetch fails
(the result is that fetch's error); it issues at most one merge call per
run (a rejected merge is never retried); and whenever the merge API is
called -- in particular when the call is rejected -- queue still returns
Ok(()). Retry exhaustion also returns Ok(()) (see the C3 theorem). -/
theorem c8_queue_error_policy (fetch : Nat → Except String (Option MergeableState))
    (mergeRes : Except String Unit) :
    (∀ e, (queue fetch mergeRes).result = Except.error e →
      ∃ j, j < 3 ∧ fetch j = Except.error e) ∧
    (queue fetch mergeRes).trace.count QEvent.mergeCall ≤ 1 ∧
    (QEvent.mergeCall ∈ (queue fetch mergeRes).trace →
      (queue fetch mergeRes).result = Except.ok ()) := by
  obtain ⟨h1, h2, h3⟩ := queueAux_behaviour fetch mergeRes 3 0
  refine ⟨?_, h2, h3⟩
  intro e he
  obtain ⟨j, _, hj2, hj3⟩ := h1 e he
  exact ⟨j, by omega, hj3⟩

/-- C8 witness: a clean PR whose merge call is rejected still yields
Ok(()). -/
theorem c8_witness :
    (queue (fun _ => Except.ok (some MergeableState.clean))
      (Except.error "merge rejected")).result = Except.ok () :=
  (c8_queue_error_policy (fun _ => Except.ok (some MergeableState.clean))
    (Except.error "merge rejected")).2.2 (by decide)

/-! ## Claim C9 -/

/-- C9: required_actions is a pure function of its inputs -- two calls on
the same PR snapshot, reviews, statuses (pointwise equal status maps) and
current time return equal Actions. -/
theorem c9_idempotent (cfg : Config) (pr : PR) (reviews : List ProcessReview)
    (statuses statuses' : String → Option StatusState) (now : Int)
    (h : ∀ s, statuses s = statuses' s) :
    required_actions cfg pr reviews statuses now =
      required_actions cfg pr reviews statuses' now := by
  have hst : statuses = statuses' := funext h
  rw [hst]

/-- C9 witness: two calls on identical concrete inputs agree. -/
theorem c9_witness :
    required_actions ⟨some "reviewed", some "nd", "ci", none, []⟩
      ⟨1, false, IssueState.open, 0, [], true⟩ [] (fun _ => none) 0 =
    required_actions ⟨some "reviewed", some "nd", "ci", none, []⟩
      ⟨1, false, IssueState.open, 0, [], true⟩ [] (fun _ => none) 0 :=
  c9_idempotent _ _ _ _ _ 0 (fun _ => rfl)

end Octobors
